import Mathlib

/-!
Shallow embedding of the `stor` repository (sebcat/stor, file `stor.go`):
a filesystem-backed key/value store with a transfer cache, an optional
admission limiter, an optional membership inventory (ledger) and optional
pluggable read caches (`CacheAll`, `CacheMostRecent`).

Go byte slices are modelled as `Option (List Nat)`: `none` is Go's `nil`
slice, `some bs` a non-nil slice with bytes `bs`.  Go's errors are the
inductive `GoError`; arbitrary propagated filesystem errors are `ioErr n`.
The filesystem is a map from path strings to byte lists together with
fault knobs that model the possible failures of `os.MkdirAll`/`os.Create`/
`Write` (combined, since `Store.put` propagates each the same way),
`os.Open`, and `ioutil.ReadAll`.  Goroutines spawned by `Put` are kept in
a `pending` queue; `Sync` runs them in order, which is the sequential
execution of the background persistence tasks.
-/

/-- A Go byte slice: `none` is the nil slice. -/
abbrev GoBytes := Option (List Nat)

/-- The byte content of a Go slice; the nil slice has no bytes. -/
def bytesOf : GoBytes → List Nat
  | none => []
  | some bs => bs

/-- Error values of the package: the four sentinel errors of stor.go plus
opaque propagated I/O errors. -/
inductive GoError where
  | invalidHash
  | limiterDenied
  | doesNotExist
  | alreadyExist
  | ioErr (n : Nat)
deriving DecidableEq, Repr

/-- Key validation used by `Store.Put` and `Store.Get`:
`len(hash) == 0 || strings.Contains(hash, string(filepath.Separator))`
is the invalid case; the separator is `/`. -/
def validKey (hash : String) : Bool :=
  !hash.data.isEmpty && !hash.data.contains '/'

/-- Association-list lookup keyed by string (first match). -/
def lookupA {α : Type} (l : List (String × α)) (hash : String) : Option α :=
  match l with
  | [] => none
  | e :: rest => if e.1 = hash then some e.2 else lookupA rest hash

/-- Remove every binding of a key (Go map `delete`). -/
def eraseA {α : Type} (l : List (String × α)) (hash : String) : List (String × α) :=
  l.filter (fun e => decide (e.1 ≠ hash))

/-- Overwriting map insertion (Go map assignment). -/
def insertA {α : Type} (l : List (String × α)) (hash : String) (v : α) :
    List (String × α) :=
  (hash, v) :: eraseA l hash

/-- The full-retention cache `CacheAll`: a map from hash to (non-nil) data. -/
structure CacheAll where
  m : List (String × List Nat)
deriving DecidableEq, Repr

/-- NewCacheAll returns an empty full-retention cache. -/
def NewCacheAll : CacheAll := ⟨[]⟩

/-- CacheAll.SeePut stores the data unconditionally, unless it is nil,
in which case the insertion is ignored. -/
def CacheAll.SeePut (c : CacheAll) (hash : String) (data : GoBytes) : CacheAll :=
  match data with
  | none => c
  | some bs => ⟨insertA c.m hash bs⟩

/-- CacheAll.Get returns the stored element, or nil when absent. -/
def CacheAll.Get (c : CacheAll) (hash : String) : GoBytes :=
  match lookupA c.m hash with
  | some bs => some bs
  | none => none

/-- An element of the recency cache list: a hash and its data. -/
structure cacheElem where
  hash : String
  data : GoBytes
deriving DecidableEq, Repr

/-- The bounded recency cache `CacheMostRecent`.  The Go code keeps a
doubly linked list (front = most recent) and a map from hash to list
element; here `elems` is the list in order, and the map is the implicit
association of a hash with its first occurrence in `elems`. -/
structure CacheMostRecent where
  elems : List cacheElem
  capacity : Nat
deriving DecidableEq, Repr

/-- NewCacheMostRecent: capacities below one yield no cache (`nil`). -/
def NewCacheMostRecent (capacity : Int) : Option CacheMostRecent :=
  if capacity ≤ 0 then none
  else some ⟨[], capacity.toNat⟩

/-- CacheMostRecent.SeeGet: below capacity, the new element is pushed to
the front; at capacity, the tail element is overwritten with the new
hash/data, moved to the front, and its old hash is dropped from the index:
the net effect on the list is prepending the new element and dropping the
last one. -/
def CacheMostRecent.SeeGet (c : CacheMostRecent) (hash : String) (data : GoBytes) :
    CacheMostRecent :=
  if c.elems.length < c.capacity then
    { c with elems := ⟨hash, data⟩ :: c.elems }
  else
    { c with elems := ⟨hash, data⟩ :: c.elems.dropLast }

/-- Replace the data of the first element with the given hash, keeping its
position; no change when the hash is absent. -/
def replaceFirst (l : List cacheElem) (hash : String) (data : GoBytes) :
    List cacheElem :=
  match l with
  | [] => []
  | e :: rest =>
    if e.hash = hash then ⟨hash, data⟩ :: rest
    else e :: replaceFirst rest hash data

/-- CacheMostRecent.SeePut: an existing element is overwritten in place but
not moved to the front; nothing happens for an absent hash. -/
def CacheMostRecent.SeePut (c : CacheMostRecent) (hash : String) (data : GoBytes) :
    CacheMostRecent :=
  { c with elems := replaceFirst c.elems hash data }

/-- First element with the given hash, if any (the map lookup). -/
def findElem (l : List cacheElem) (hash : String) : Option cacheElem :=
  match l with
  | [] => none
  | e :: rest => if e.hash = hash then some e else findElem rest hash

/-- Remove the first element with the given hash. -/
def removeFirst (l : List cacheElem) (hash : String) : List cacheElem :=
  match l with
  | [] => []
  | e :: rest => if e.hash = hash then rest else e :: removeFirst rest hash

/-- CacheMostRecent.Get: on a hit the element is moved to the front and its
data returned (the data may itself be nil); on a miss nil is returned and
nothing changes. -/
def CacheMostRecent.Get (c : CacheMostRecent) (hash : String) :
    GoBytes × CacheMostRecent :=
  match findElem c.elems hash with
  | none => (none, c)
  | some e => (e.data, { c with elems := e :: removeFirst c.elems hash })

/-- The default inventory: a set of hashes behind a lock, modelled as a
duplicate-free list. -/
abbrev DefaultInventory := List String

/-- DefaultInventory.See idempotently marks a hash as known. -/
def DefaultInventory.See (i : DefaultInventory) (hash : String) : DefaultInventory :=
  if i.contains hash then i else hash :: i

/-- DefaultInventory.Has reports whether a hash is known. -/
def DefaultInventory.Has (i : DefaultInventory) (hash : String) : Bool :=
  i.contains hash

/-- A pluggable cache: the base lookup (which may mutate the cache state,
as `CacheMostRecent.Get` promotes on a hit) plus the two optional
capability hooks, `none` when the concrete cache does not implement the
corresponding interface (`InsertionCache`, `RetrievalCache`). -/
structure CacheModel (σ : Type) where
  get : σ → String → GoBytes × σ
  seePut : Option (σ → String → GoBytes → σ)
  seeGet : Option (σ → String → GoBytes → σ)

/-- The `CacheAll` policy as a pluggable cache: insertion hook only. -/
def cacheAllModel : CacheModel CacheAll where
  get := fun c hash => (CacheAll.Get c hash, c)
  seePut := some (fun c hash data => CacheAll.SeePut c hash data)
  seeGet := none

/-- The `CacheMostRecent` policy as a pluggable cache: both hooks. -/
def cacheMostRecentModel : CacheModel CacheMostRecent where
  get := fun c hash => CacheMostRecent.Get c hash
  seePut := some (fun c hash data => CacheMostRecent.SeePut c hash data)
  seeGet := some (fun c hash data => CacheMostRecent.SeeGet c hash data)

/-- The filesystem: stored files plus fault knobs for the three kinds of
I/O the store performs.  `failPut` makes `Store.put` fail (covering
`os.MkdirAll`, `os.Create` and `Write` errors, which `Store.put`
propagates identically); `openFault` makes `os.Open` fail for a reason
other than file absence; `readFault` makes `ioutil.ReadAll` fail. -/
structure FS where
  files : List (String × List Nat)
  failPut : Option GoError
  openFault : Option GoError
  readFault : Option GoError

/-- A background persistence task scheduled by `Put`: the captured hash
and data of the accepted write. -/
structure PendingWrite where
  hash : String
  data : GoBytes
deriving DecidableEq, Repr

/-- The store: optional limiter, cache and inventory, the root path, the
sticky asynchronous write error, the transfer cache, the queue of
scheduled background tasks (the outstanding-write counter is its length)
and the filesystem. -/
structure Store (σ : Type) where
  limiter : Option (String → GoBytes → Bool)
  cacheModel : Option (CacheModel σ)
  cacheState : σ
  inventory : Option DefaultInventory
  path : String
  writeErr : Option GoError
  inTransfer : List (String × GoBytes)
  pending : List PendingWrite
  fs : FS

/-- Store.hashDir: the shard directory, the first two characters of the
hash, or the hash itself when shorter. -/
def Store.hashDir {σ : Type} (s : Store σ) (hash : String) : String :=
  let subdir := if hash.length < 2 then hash else ⟨hash.data.take 2⟩
  s.path ++ "/" ++ subdir

/-- The on-disk path of a hash: `root/shard(hash)/hash`. -/
def Store.filePath {σ : Type} (s : Store σ) (hash : String) : String :=
  s.hashDir hash ++ "/" ++ hash

/-- Store.put: create the shard directory and write the bytes of the data
to the file, truncating any previous content; any failure is returned. -/
def Store.put {σ : Type} (s : Store σ) (hash : String) (data : GoBytes) :
    Except GoError FS :=
  match s.fs.failPut with
  | some e => .error e
  | none => .ok { s.fs with files := insertA s.fs.files (s.filePath hash) (bytesOf data) }

/-- Models `os.Open`: a configured open fault fails first; otherwise a
missing file fails with a not-exist I/O error, and a present file yields
its content (the open file handle). -/
def fsOpen (fs : FS) (path : String) : Except GoError (List Nat) :=
  match fs.openFault with
  | some e => .error e
  | none =>
    match lookupA fs.files path with
    | some content => .ok content
    | none => .error (GoError.ioErr 0)

/-- Models `ioutil.ReadAll` on an opened file. -/
def fsReadAll (fs : FS) (content : List Nat) : Except GoError (List Nat) :=
  match fs.readFault with
  | some e => .error e
  | none => .ok content

/-- Store.get: open the file — ANY open error becomes `ErrDoesNotExist` —
then read it, propagating a read error verbatim. -/
def Store.get {σ : Type} (s : Store σ) (hash : String) : Except GoError (List Nat) :=
  match fsOpen s.fs (s.filePath hash) with
  | .error _ => .error GoError.doesNotExist
  | .ok content => fsReadAll s.fs content

/-- The limiter check `s.Limiter != nil && s.Limiter.Deny(hash, data)`. -/
def limiterDenies (lim : Option (String → GoBytes → Bool)) (hash : String)
    (data : GoBytes) : Bool :=
  match lim with
  | some deny => deny hash data
  | none => false

/-- The inventory check `s.Inventory != nil && s.Inventory.Has(hash)`. -/
def invHas (inv : Option DefaultInventory) (hash : String) : Bool :=
  match inv with
  | some i => i.Has hash
  | none => false

/-- Store.Put: validate the key, fail on a recorded sticky write error,
consult the limiter, reject a hash the inventory already knows, insert
into the transfer cache, fire the insertion hook when the cache supports
it, and schedule the background persistence task.  Success means
accepted, not durable. -/
def Store.Put {σ : Type} (s : Store σ) (hash : String) (data : GoBytes) :
    Option GoError × Store σ :=
  if !(validKey hash) then (some GoError.invalidHash, s)
  else
    match s.writeErr with
    | some e => (some e, s)
    | none =>
      if limiterDenies s.limiter hash data then (some GoError.limiterDenied, s)
      else if invHas s.inventory hash then (some GoError.alreadyExist, s)
      else
        let s := { s with inTransfer := insertA s.inTransfer hash data }
        let s :=
          match s.cacheModel with
          | some cm =>
            match cm.seePut with
            | some f => { s with cacheState := f s.cacheState hash data }
            | none => s
          | none => s
        (none, { s with pending := s.pending ++ [⟨hash, data⟩] })

/-- Events of one background persistence task, in execution order. -/
inductive TaskEvent where
  | diskWriteDone (ok : Bool)
  | setWriteErr
  | ledgerRegistered
  | transferRemoved
  | counterDecremented
deriving DecidableEq, BEq, Repr

/-- The body of the goroutine spawned by `Put` for one accepted write:
write to disk; on failure record the sticky error, on success register the
hash in the inventory when one is configured; then (deferred, in LIFO
order) remove the entry from the transfer cache and decrement the
outstanding-write counter.  The returned trace lists the steps in the
order they run. -/
def Store.asyncWrite {σ : Type} (s : Store σ) (t : PendingWrite) :
    Store σ × List TaskEvent :=
  match Store.put s t.hash t.data with
  | .error e =>
    let s := { s with writeErr := some e }
    let s := { s with inTransfer := eraseA s.inTransfer t.hash }
    (s, [.diskWriteDone false, .setWriteErr, .transferRemoved, .counterDecremented])
  | .ok fs' =>
    let s := { s with fs := fs' }
    match s.inventory with
    | some inv =>
      let s := { s with inventory := some (inv.See t.hash) }
      let s := { s with inTransfer := eraseA s.inTransfer t.hash }
      (s, [.diskWriteDone true, .ledgerRegistered, .transferRemoved, .counterDecremented])
    | none =>
      let s := { s with inTransfer := eraseA s.inTransfer t.hash }
      (s, [.diskWriteDone true, .transferRemoved, .counterDecremented])

/-- Run a list of scheduled background tasks in order. -/
def Store.syncTasks {σ : Type} (s : Store σ) (ts : List PendingWrite) : Store σ :=
  match ts with
  | [] => s
  | t :: rest => Store.syncTasks (Store.asyncWrite s t).1 rest

/-- Store.Sync waits for all outstanding writes: modelled as running every
scheduled background task to completion, in order. -/
def Store.Sync {σ : Type} (s : Store σ) : Store σ :=
  Store.syncTasks { s with pending := [] } s.pending

/-- Events of one `Get` call, in the order the layers are consulted. -/
inductive GetEvent where
  | cacheConsulted
  | transferConsulted
  | ledgerConsulted
  | diskRead (ok : Bool)
  | seeGetFired
deriving DecidableEq, BEq, Repr

/-- The disk stage of `Get`: read from disk; on success fire the retrieval
hook when the cache supports it, then return the data verbatim (a
successful `ReadAll` yields a non-nil slice); an error from `Store.get`
is returned verbatim. -/
def Store.getDisk {σ : Type} (s : Store σ) (hash : String) (tr : List GetEvent) :
    Except GoError GoBytes × Store σ × List GetEvent :=
  match Store.get s hash with
  | .error e => (.error e, s, tr ++ [.diskRead false])
  | .ok content =>
    match s.cacheModel with
    | some cm =>
      match cm.seeGet with
      | some f =>
        (.ok (some content),
         { s with cacheState := f s.cacheState hash (some content) },
         tr ++ [.diskRead true, .seeGetFired])
      | none => (.ok (some content), s, tr ++ [.diskRead true])
    | none => (.ok (some content), s, tr ++ [.diskRead true])

/-- The stages of `Get` below the read cache: the transfer cache (a hit is
returned even when the stored data is nil), then the inventory gate — a
configured inventory that does not know the hash means `ErrDoesNotExist`
with no disk access — then disk. -/
def Store.getAfterCache {σ : Type} (s : Store σ) (hash : String)
    (tr : List GetEvent) : Except GoError GoBytes × Store σ × List GetEvent :=
  match lookupA s.inTransfer hash with
  | some d => (.ok d, s, tr ++ [.transferConsulted])
  | none =>
    match s.inventory with
    | some inv =>
      if inv.Has hash then
        Store.getDisk s hash (tr ++ [.transferConsulted, .ledgerConsulted])
      else
        (.error GoError.doesNotExist, s, tr ++ [.transferConsulted, .ledgerConsulted])
    | none => Store.getDisk s hash (tr ++ [.transferConsulted])

/-- Store.Get: validate the key, then consult the read cache — a non-nil
result is returned at once — then fall through to the transfer cache, the
inventory and disk.  The trace records which layers were consulted. -/
def Store.Get {σ : Type} (s : Store σ) (hash : String) :
    Except GoError GoBytes × Store σ × List GetEvent :=
  if !(validKey hash) then (.error GoError.invalidHash, s, [])
  else
    match s.cacheModel with
    | some cm =>
      let r := cm.get s.cacheState hash
      let s := { s with cacheState := r.2 }
      match r.1 with
      | some bs => (.ok (some bs), s, [.cacheConsulted])
      | none => Store.getAfterCache s hash [.cacheConsulted]
    | none => Store.getAfterCache s hash []

/-- A fresh store with no limiter and no cache, an optional (fresh)
inventory, an empty transfer cache, no scheduled tasks, no sticky error
and an empty, fault-free filesystem. -/
def freshStore (inv : Option DefaultInventory) : Store Unit where
  limiter := none
  cacheModel := none
  cacheState := ()
  inventory := inv
  path := "root"
  writeErr := none
  inTransfer := []
  pending := []
  fs := { files := [], failPut := none, openFault := none, readFault := none }


/-- A fresh store equipped with a pluggable cache in a given initial
state, used to instantiate the general theorems. -/
def freshStoreC (σ : Type) (cm : CacheModel σ) (c0 : σ)
    (inv : Option DefaultInventory) : Store σ where
  limiter := none
  cacheModel := some cm
  cacheState := c0
  inventory := inv
  path := "root"
  writeErr := none
  inTransfer := []
  pending := []
  fs := { files := [], failPut := none, openFault := none, readFault := none }

/-- A store whose limiter denies every write. -/
def sDenyAll : Store Unit :=
  { freshStore none with limiter := some (fun _ _ => true) }

/-- A store carrying a recorded sticky write error, together with a
limiter that denies everything and an inventory that already knows "ab":
the sticky error must win over both. -/
def sPoisoned : Store Unit :=
  { freshStore none with
      writeErr := some (GoError.ioErr 3)
      limiter := some (fun _ _ => true)
      inventory := some ["ab"] }

/-- A store whose file for key "ab" exists on disk but whose `os.Open`
fails for a reason other than absence. -/
def sOpenFault : Store Unit :=
  { freshStore none with
      fs := { files := [("root/ab/ab", [1, 2, 3])]
              failPut := none
              openFault := some (GoError.ioErr 7)
              readFault := none } }

/-- A store whose file for key "ab" opens fine but whose read fails. -/
def sReadFault : Store Unit :=
  { freshStore none with
      fs := { files := [("root/ab/ab", [1, 2, 3])]
              failPut := none
              openFault := none
              readFault := some (GoError.ioErr 9) } }

/-- One operation against the recency cache: the retrieval hook, the
insertion hook, or a lookup (whose promotion side effect is kept). -/
inductive CacheOp where
  | seeGet (hash : String) (data : GoBytes)
  | seePut (hash : String) (data : GoBytes)
  | get (hash : String)
deriving DecidableEq, Repr

/-- Apply one cache operation to a recency cache. -/
def applyOp (c : CacheMostRecent) : CacheOp → CacheMostRecent
  | .seeGet hash data => c.SeeGet hash data
  | .seePut hash data => c.SeePut hash data
  | .get hash => (c.Get hash).2

/-- Run a sequence of cache operations from a given state. -/
def runOps (c : CacheMostRecent) (ops : List CacheOp) : CacheMostRecent :=
  ops.foldl applyOp c

/-! Helper lemmas shared by several claim theorems. -/

/-- Put never modifies the recorded sticky write error. -/
theorem Put_writeErr_eq {σ : Type} (s : Store σ) (k : String) (d : GoBytes) :
    ((Store.Put s k d).2).writeErr = s.writeErr := by
  cases hv : validKey k with
  | false => simp [Store.Put, hv]
  | true =>
    cases hw : s.writeErr with
    | some e => simp [Store.Put, hv, hw]
    | none =>
      cases hl : limiterDenies s.limiter k d with
      | true => simp [Store.Put, hv, hw, hl]
      | false =>
        cases hi : invHas s.inventory k with
        | true => simp [Store.Put, hv, hw, hl, hi]
        | false =>
          cases hcm : s.cacheModel with
          | none => simp [Store.Put, hv, hw, hl, hi, hcm]
          | some cm =>
            cases hsp : cm.seePut with
            | none => simp [Store.Put, hv, hw, hl, hi, hcm, hsp]
            | some f => simp [Store.Put, hv, hw, hl, hi, hcm, hsp]

/-- A background task never clears the sticky write error: on failure it
sets it, on success it leaves it untouched. -/
theorem asyncWrite_writeErr_isSome {σ : Type} (s : Store σ) (t : PendingWrite)
    (h : s.writeErr.isSome = true) :
    (((Store.asyncWrite s t).1).writeErr).isSome = true := by
  unfold Store.asyncWrite
  cases hp : Store.put s t.hash t.data with
  | error e => simp
  | ok fs' =>
    cases hi : s.inventory with
    | none => simpa using h
    | some inv => simpa using h

/-- Running any list of background tasks never clears the sticky error. -/
theorem syncTasks_writeErr_isSome {σ : Type} (ts : List PendingWrite) :
    ∀ s : Store σ, s.writeErr.isSome = true →
      ((Store.syncTasks s ts).writeErr).isSome = true := by
  induction ts with
  | nil => intro s h; simpa [Store.syncTasks] using h
  | cons t rest ih =>
    intro s h
    simpa [Store.syncTasks] using ih _ (asyncWrite_writeErr_isSome s t h)

/-- C1.  Round trip: for every valid key and every value, on a fresh store
Put accepts the write, and after Sync a Get succeeds and returns a byte
sequence equal byte-for-byte to the written value. -/
theorem stor_C1 (k : String) (v : GoBytes) (hk : validKey k = true) :
    (Store.Put (freshStore none) k v).1 = none ∧
    ∃ b, ((Store.Sync (Store.Put (freshStore none) k v).2).Get k).1 = .ok b ∧
      bytesOf b = bytesOf v := by
  refine ⟨by simp [Store.Put, freshStore, hk, limiterDenies, invHas], ?_⟩
  refine ⟨some (bytesOf v), ?_, rfl⟩
  simp [Store.Put, freshStore, hk, limiterDenies, invHas, Store.Sync,
    Store.syncTasks, Store.asyncWrite, Store.put, insertA, eraseA,
    Store.Get, Store.getAfterCache, Store.getDisk, Store.get, fsOpen,
    fsReadAll, lookupA, Store.filePath, Store.hashDir]

/-- Witness for C1 at key "ab" and value [1, 2, 3]. -/
theorem stor_C1_witness :
    validKey "ab" = true ∧
    ((Store.Put (freshStore none) "ab" (some [1, 2, 3])).1 = none ∧
     ∃ b, ((Store.Sync (Store.Put (freshStore none) "ab" (some [1, 2, 3])).2).Get
        "ab").1 = .ok b ∧ bytesOf b = bytesOf (some [1, 2, 3])) :=
  ⟨by decide, stor_C1 "ab" (some [1, 2, 3]) (by decide)⟩

/-- C4.  Sticky failure: with a recorded background write error, every Put
with a valid key returns that error verbatim and leaves the store
unchanged — no new persistence attempt — whatever the limiter or
inventory would say (the statement holds for every configured limiter and
inventory, so neither is consulted); Put never modifies the recorded
error, and neither a background task nor Sync ever clears it. -/
theorem stor_C4 :
    (∀ (σ : Type) (s : Store σ) (k : String) (d : GoBytes) (e : GoError),
       validKey k = true → s.writeErr = some e →
       Store.Put s k d = (some e, s)) ∧
    (∀ (σ : Type) (s : Store σ) (k : String) (d : GoBytes),
       ((Store.Put s k d).2).writeErr = s.writeErr) ∧
    (∀ (σ : Type) (s : Store σ) (t : PendingWrite),
       s.writeErr.isSome = true →
       (((Store.asyncWrite s t).1).writeErr).isSome = true) ∧
    (∀ (σ : Type) (s : Store σ),
       s.writeErr.isSome = true → ((Store.Sync s).writeErr).isSome = true) := by
  refine ⟨?_, ?_, ?_, ?_⟩
  · intro σ s k d e hk hw
    simp [Store.Put, hk, hw]
  · intro σ s k d
    exact Put_writeErr_eq s k d
  · intro σ s t h
    exact asyncWrite_writeErr_isSome s t h
  · intro σ s h
    exact syncTasks_writeErr_isSome s.pending _ (by simpa using h)

/-- Witness for C4: a poisoned store whose limiter denies everything and
whose inventory already knows the key still returns the stored error
verbatim, with unchanged state. -/
theorem stor_C4_witness :
    validKey "ab" = true ∧
    Store.Put sPoisoned "ab" (some [1]) = (some (GoError.ioErr 3), sPoisoned) :=
  ⟨by decide,
   stor_C4.1 Unit sPoisoned "ab" (some [1]) (GoError.ioErr 3) (by decide) rfl⟩

/-- C6.  Admission denial is side-effect-free: when the configured limiter
denies a valid key, Put returns the admission error and the store — the
transfer cache, the read cache state, the inventory and the queue of
outstanding writes — is exactly as before. -/
theorem stor_C6 (σ : Type) (s : Store σ) (k : String) (d : GoBytes)
    (L : String → GoBytes → Bool)
    (hk : validKey k = true) (hw : s.writeErr = none)
    (hl : s.limiter = some L) (hd : L k d = true) :
    Store.Put s k d = (some GoError.limiterDenied, s) := by
  simp [Store.Put, hk, hw, limiterDenies, hl, hd]

/-- Witness for C6: a store whose limiter denies everything. -/
theorem stor_C6_witness :
    validKey "ab" = true ∧
    Store.Put sDenyAll "ab" (some [1]) = (some GoError.limiterDenied, sDenyAll) :=
  ⟨by decide,
   stor_C6 Unit sDenyAll "ab" (some [1]) (fun _ _ => true) (by decide) rfl rfl rfl⟩

/-- C5.  Duplicate rejection: with a fresh inventory configured, a first
Put of a valid key is accepted (the inventory learns the key only in the
background task), and after Sync a second Put of the same key returns the
already-exists error. -/
theorem stor_C5 (k : String) (v : GoBytes) (hk : validKey k = true) :
    (Store.Put (freshStore (some [])) k v).1 = none ∧
    (Store.Put (Store.Sync (Store.Put (freshStore (some [])) k v).2) k v).1
      = some GoError.alreadyExist := by
  constructor
  · simp [Store.Put, freshStore, hk, limiterDenies, invHas, DefaultInventory.Has]
  · simp [Store.Put, freshStore, hk, limiterDenies, invHas, Store.Sync,
      Store.syncTasks, Store.asyncWrite, Store.put, insertA, eraseA,
      DefaultInventory.See, DefaultInventory.Has, lookupA]

/-- Witness for C5 at key "ab". -/
theorem stor_C5_witness :
    validKey "ab" = true ∧
    ((Store.Put (freshStore (some [])) "ab" (some [1])).1 = none ∧
     (Store.Put (Store.Sync (Store.Put (freshStore (some [])) "ab" (some [1])).2)
        "ab" (some [1])).1 = some GoError.alreadyExist) :=
  ⟨by decide, stor_C5 "ab" (some [1]) (by decide)⟩

/-- Counterexample for C3: on a store whose file for "ab" exists but whose
open fails with an I/O error that is not file-absence, Get returns the
not-found sentinel instead of propagating the open error verbatim. -/
theorem stor_C3_counterexample :
    lookupA sOpenFault.fs.files (sOpenFault.filePath "ab") = some [1, 2, 3] ∧
    sOpenFault.fs.openFault = some (GoError.ioErr 7) ∧
    (sOpenFault.Get "ab").1 = .error GoError.doesNotExist ∧
    (sOpenFault.Get "ab").1 ≠ .error (GoError.ioErr 7) := by
  refine ⟨rfl, rfl, rfl, ?_⟩
  simp [Store.Get, Store.getAfterCache, Store.getDisk, Store.get, fsOpen,
    sOpenFault, freshStore, validKey, lookupA]

/-- C3 as amended.  Disk-read error taxonomy of `Store.get`: ANY failure to
open the file — absence or any other open error — yields the not-found
sentinel, while an I/O failure when reading an opened file is propagated
verbatim; the disk stage of Get returns the error of `Store.get`
verbatim. -/
theorem stor_C3 :
    (∀ (σ : Type) (s : Store σ) (k : String) (e : GoError),
       s.fs.openFault = some e →
       Store.get s k = .error GoError.doesNotExist) ∧
    (∀ (σ : Type) (s : Store σ) (k : String),
       s.fs.openFault = none →
       lookupA s.fs.files (s.filePath k) = none →
       Store.get s k = .error GoError.doesNotExist) ∧
    (∀ (σ : Type) (s : Store σ) (k : String) (content : List Nat) (e : GoError),
       s.fs.openFault = none →
       lookupA s.fs.files (s.filePath k) = some content →
       s.fs.readFault = some e →
       Store.get s k = .error e) ∧
    (∀ (σ : Type) (s : Store σ) (k : String) (tr : List GetEvent) (e : GoError),
       Store.get s k = .error e →
       (Store.getDisk s k tr).1 = .error e) := by
  refine ⟨?_, ?_, ?_, ?_⟩
  · intro σ s k e ho
    simp [Store.get, fsOpen, ho]
  · intro σ s k ho hf
    simp [Store.get, fsOpen, ho, hf]
  · intro σ s k content e ho hf hr
    simp [Store.get, fsOpen, fsReadAll, ho, hf, hr]
  · intro σ s k tr e hg
    simp [Store.getDisk, hg]

/-- Witness for C3: a read failure after a successful open is propagated
verbatim. -/
theorem stor_C3_witness :
    sReadFault.fs.openFault = none ∧
    lookupA sReadFault.fs.files (sReadFault.filePath "ab") = some [1, 2, 3] ∧
    sReadFault.fs.readFault = some (GoError.ioErr 9) ∧
    Store.get sReadFault "ab" = .error (GoError.ioErr 9) :=
  ⟨rfl, rfl, rfl,
   stor_C3.2.2.1 Unit sReadFault "ab" [1, 2, 3] (GoError.ioErr 9) rfl rfl rfl⟩

/-- C9.  Transfer-cache removal ordering: in every background task's event
trace, the transfer-cache removal occurs, the disk write finishes strictly
before it, inventory registration (when it occurs) is strictly before it,
and when an inventory is configured and the disk write succeeds the
inventory registration does occur. -/
theorem stor_C9 (σ : Type) (s : Store σ) (t : PendingWrite) :
    ((TaskEvent.transferRemoved ∈ (Store.asyncWrite s t).2) ∧
     (∃ b, TaskEvent.diskWriteDone b ∈ (Store.asyncWrite s t).2)) ∧
    (∀ b, TaskEvent.diskWriteDone b ∈ (Store.asyncWrite s t).2 →
       ((Store.asyncWrite s t).2).indexOf (TaskEvent.diskWriteDone b)
         < ((Store.asyncWrite s t).2).indexOf TaskEvent.transferRemoved) ∧
    (TaskEvent.ledgerRegistered ∈ (Store.asyncWrite s t).2 →
       ((Store.asyncWrite s t).2).indexOf TaskEvent.ledgerRegistered
         < ((Store.asyncWrite s t).2).indexOf TaskEvent.transferRemoved) ∧
    ((s.inventory ≠ none ∧ ∃ fs', Store.put s t.hash t.data = .ok fs') →
       TaskEvent.ledgerRegistered ∈ (Store.asyncWrite s t).2) := by
  cases hp : Store.put s t.hash t.data with
  | error e =>
    refine ⟨⟨?_, ⟨false, ?_⟩⟩, ?_, ?_, ?_⟩
    · simp [Store.asyncWrite, hp]
    · simp [Store.asyncWrite, hp]
    · intro b hb
      simp [Store.asyncWrite, hp] at hb ⊢
      subst hb
      decide
    · intro hl
      simp [Store.asyncWrite, hp] at hl
    · rintro ⟨-, fs', hok⟩
      simp at hok
  | ok fs' =>
    cases hi : s.inventory with
    | some inv =>
      refine ⟨⟨?_, ⟨true, ?_⟩⟩, ?_, ?_, ?_⟩
      · simp [Store.asyncWrite, hp, hi]
      · simp [Store.asyncWrite, hp, hi]
      · intro b hb
        simp [Store.asyncWrite, hp, hi] at hb ⊢
        subst hb
        decide
      · intro hl
        simp [Store.asyncWrite, hp, hi]
        decide
      · intro h
        simp [Store.asyncWrite, hp, hi]
    | none =>
      refine ⟨⟨?_, ⟨true, ?_⟩⟩, ?_, ?_, ?_⟩
      · simp [Store.asyncWrite, hp, hi]
      · simp [Store.asyncWrite, hp, hi]
      · intro b hb
        simp [Store.asyncWrite, hp, hi] at hb ⊢
        subst hb
        decide
      · intro hl
        simp [Store.asyncWrite, hp, hi] at hl
      · rintro ⟨hinv, -⟩
        exact absurd rfl hinv

/-- Witness for C9: on a fresh store with an inventory, the task for an
accepted write registers the key and only then removes the transfer-cache
entry. -/
theorem stor_C9_witness :
    TaskEvent.ledgerRegistered
      ∈ (Store.asyncWrite (freshStore (some [])) ⟨"ab", some [1]⟩).2 ∧
    ((Store.asyncWrite (freshStore (some [])) ⟨"ab", some [1]⟩).2).indexOf
        TaskEvent.ledgerRegistered
      < ((Store.asyncWrite (freshStore (some [])) ⟨"ab", some [1]⟩).2).indexOf
          TaskEvent.transferRemoved := by
  have h := stor_C9 Unit (freshStore (some [])) ⟨"ab", some [1]⟩
  have hm := h.2.2.2 ⟨by simp [freshStore], ⟨_, rfl⟩⟩
  exact ⟨hm, h.2.2.1 hm⟩

/-- Every disk stage of Get appends at least one event to the trace. -/
theorem getDisk_trace_shape {σ : Type} (s : Store σ) (k : String)
    (tr : List GetEvent) :
    ∃ rest, rest ≠ [] ∧ (Store.getDisk s k tr).2.2 = tr ++ rest := by
  cases hg : Store.get s k with
  | error e =>
    exact ⟨[.diskRead false], by simp, by simp [Store.getDisk, hg]⟩
  | ok content =>
    cases hcm : s.cacheModel with
    | none =>
      exact ⟨[.diskRead true], by simp, by simp [Store.getDisk, hg, hcm]⟩
    | some cm =>
      cases hsg : cm.seeGet with
      | none =>
        exact ⟨[.diskRead true], by simp, by simp [Store.getDisk, hg, hcm, hsg]⟩
      | some f =>
        exact ⟨[.diskRead true, .seeGetFired], by simp,
          by simp [Store.getDisk, hg, hcm, hsg]⟩

/-- The stages of Get below the read cache always record the
transfer-cache consultation first. -/
theorem getAfterCache_trace_shape {σ : Type} (s : Store σ) (k : String)
    (tr : List GetEvent) :
    ∃ rest, (Store.getAfterCache s k tr).2.2
      = tr ++ (.transferConsulted :: rest) := by
  cases ht : lookupA s.inTransfer k with
  | some d => exact ⟨[], by simp [Store.getAfterCache, ht]⟩
  | none =>
    cases hi : s.inventory with
    | none =>
      obtain ⟨rest, -, hr⟩ := getDisk_trace_shape s k (tr ++ [.transferConsulted])
      refine ⟨rest, ?_⟩
      rw [show (Store.getAfterCache s k tr)
            = Store.getDisk s k (tr ++ [.transferConsulted]) by
          simp [Store.getAfterCache, ht, hi]]
      simpa using hr
    | some inv =>
      cases hh : inv.Has k with
      | false =>
        exact ⟨[.ledgerConsulted], by simp [Store.getAfterCache, ht, hi, hh]⟩
      | true =>
        obtain ⟨rest, -, hr⟩ :=
          getDisk_trace_shape s k (tr ++ [.transferConsulted, .ledgerConsulted])
        refine ⟨.ledgerConsulted :: rest, ?_⟩
        rw [show (Store.getAfterCache s k tr)
              = Store.getDisk s k (tr ++ [.transferConsulted, .ledgerConsulted]) by
            simp [Store.getAfterCache, ht, hi, hh]]
        simpa using hr

/-- In the disk stage, the retrieval hook fires only right after a
successful disk read. -/
theorem getDisk_seeGetFired {σ : Type} (s : Store σ) (k : String)
    (tr : List GetEvent) (htr : GetEvent.seeGetFired ∉ tr)
    (hm : GetEvent.seeGetFired ∈ (Store.getDisk s k tr).2.2) :
    ∃ pre, (Store.getDisk s k tr).2.2 = pre ++ [.diskRead true, .seeGetFired] := by
  cases hg : Store.get s k with
  | error e => simp [Store.getDisk, hg, htr] at hm
  | ok content =>
    cases hcm : s.cacheModel with
    | none => simp [Store.getDisk, hg, hcm, htr] at hm
    | some cm =>
      cases hsg : cm.seeGet with
      | none => simp [Store.getDisk, hg, hcm, hsg, htr] at hm
      | some f => exact ⟨tr, by simp [Store.getDisk, hg, hcm, hsg]⟩

/-- Below the read cache, the retrieval hook fires only right after a
successful disk read. -/
theorem getAfterCache_seeGetFired {σ : Type} (s : Store σ) (k : String)
    (tr : List GetEvent) (htr : GetEvent.seeGetFired ∉ tr)
    (hm : GetEvent.seeGetFired ∈ (Store.getAfterCache s k tr).2.2) :
    ∃ pre, (Store.getAfterCache s k tr).2.2
      = pre ++ [.diskRead true, .seeGetFired] := by
  cases ht : lookupA s.inTransfer k with
  | some d => simp [Store.getAfterCache, ht, htr] at hm
  | none =>
    cases hi : s.inventory with
    | none =>
      have heq : (Store.getAfterCache s k tr)
          = Store.getDisk s k (tr ++ [.transferConsulted]) := by
        simp [Store.getAfterCache, ht, hi]
      rw [heq] at hm ⊢
      exact getDisk_seeGetFired s k (tr ++ [.transferConsulted])
        (by simp [htr]) hm
    | some inv =>
      cases hh : inv.Has k with
      | false => simp [Store.getAfterCache, ht, hi, hh, htr] at hm
      | true =>
        have heq : (Store.getAfterCache s k tr)
            = Store.getDisk s k (tr ++ [.transferConsulted, .ledgerConsulted]) := by
          simp [Store.getAfterCache, ht, hi, hh]
        rw [heq] at hm ⊢
        exact getDisk_seeGetFired s k (tr ++ [.transferConsulted, .ledgerConsulted])
          (by simp [htr]) hm

/-- C2.  Read lookup order: a non-nil cache hit returns at once, consulting
nothing else; on a cache miss a transfer-cache hit returns without
consulting the inventory or disk; a configured inventory that does not
know the key yields not-found with no disk access; and the retrieval hook
fires only immediately after a successful disk read, last before the
value is returned. -/
theorem stor_C2 :
    (∀ (σ : Type) (s : Store σ) (k : String) (cm : CacheModel σ) (bs : List Nat)
       (cst' : σ),
       validKey k = true → s.cacheModel = some cm →
       cm.get s.cacheState k = (some bs, cst') →
       Store.Get s k
         = (.ok (some bs), { s with cacheState := cst' }, [.cacheConsulted])) ∧
    (∀ (σ : Type) (s : Store σ) (k : String) (cm : CacheModel σ) (cst' : σ)
       (d : GoBytes),
       validKey k = true → s.cacheModel = some cm →
       cm.get s.cacheState k = (none, cst') →
       lookupA s.inTransfer k = some d →
       Store.Get s k
         = (.ok d, { s with cacheState := cst' },
            [.cacheConsulted, .transferConsulted])) ∧
    (∀ (σ : Type) (s : Store σ) (k : String) (cm : CacheModel σ) (cst' : σ)
       (inv : DefaultInventory),
       validKey k = true → s.cacheModel = some cm →
       cm.get s.cacheState k = (none, cst') →
       lookupA s.inTransfer k = none →
       s.inventory = some inv → inv.Has k = false →
       Store.Get s k
         = (.error GoError.doesNotExist, { s with cacheState := cst' },
            [.cacheConsulted, .transferConsulted, .ledgerConsulted])) ∧
    (∀ (σ : Type) (s : Store σ) (k : String),
       GetEvent.seeGetFired ∈ (Store.Get s k).2.2 →
       ∃ pre, (Store.Get s k).2.2 = pre ++ [.diskRead true, .seeGetFired]) := by
  refine ⟨?_, ?_, ?_, ?_⟩
  · intro σ s k cm bs cst' hk hcm hget
    simp [Store.Get, hk, hcm, hget]
  · intro σ s k cm cst' d hk hcm hget htr
    simp [Store.Get, Store.getAfterCache, hk, hcm, hget, htr]
  · intro σ s k cm cst' inv hk hcm hget htr hinv hhas
    simp [Store.Get, Store.getAfterCache, hk, hcm, hget, htr, hinv, hhas]
  · intro σ s k hm
    cases hv : validKey k with
    | false => simp [Store.Get, hv] at hm
    | true =>
      cases hcm : s.cacheModel with
      | none =>
        have heq : (Store.Get s k) = Store.getAfterCache s k [] := by
          simp [Store.Get, hv, hcm]
        rw [heq] at hm ⊢
        exact getAfterCache_seeGetFired s k [] (by simp) hm
      | some cm =>
        cases hb : (cm.get s.cacheState k).1 with
        | some bs => simp [Store.Get, hv, hcm, hb] at hm
        | none =>
          have heq : (Store.Get s k)
              = Store.getAfterCache { s with cacheState := (cm.get s.cacheState k).2 }
                 k [.cacheConsulted] := by
            simp [Store.Get, hv, hcm, hb]
          rw [heq] at hm ⊢
          exact getAfterCache_seeGetFired _ k [.cacheConsulted] (by simp) hm

/-- Witness for C2: on a fresh store with an empty full-retention cache and
an empty inventory, Get stops at the inventory with not-found. -/
theorem stor_C2_witness :
    validKey "ab" = true ∧
    Store.Get (freshStoreC CacheAll cacheAllModel NewCacheAll (some [])) "ab"
      = (.error GoError.doesNotExist,
         { freshStoreC CacheAll cacheAllModel NewCacheAll (some []) with
             cacheState := NewCacheAll },
         [.cacheConsulted, .transferConsulted, .ledgerConsulted]) :=
  ⟨by decide,
   stor_C2.2.2.1 CacheAll (freshStoreC CacheAll cacheAllModel NewCacheAll (some []))
     "ab" cacheAllModel NewCacheAll [] (by decide) rfl rfl rfl rfl rfl⟩

/-- C10.  Nil is the cache-absence sentinel: `CacheAll.SeePut` silently
discards nil data; a Get that returns from the cache branch (trace exactly
one cache consultation) always carries a non-nil value; and a nil cache
result makes Get fall through to the transfer-cache, inventory and disk
stages. -/
theorem stor_C10 :
    (∀ (c : CacheAll) (k : String), CacheAll.SeePut c k none = c) ∧
    (∀ (σ : Type) (s : Store σ) (k : String),
       (Store.Get s k).2.2 = [.cacheConsulted] →
       ∃ bs, (Store.Get s k).1 = .ok (some bs)) ∧
    (∀ (σ : Type) (s : Store σ) (k : String) (cm : CacheModel σ) (cst' : σ),
       validKey k = true → s.cacheModel = some cm →
       cm.get s.cacheState k = (none, cst') →
       Store.Get s k
         = Store.getAfterCache { s with cacheState := cst' } k [.cacheConsulted]) := by
  refine ⟨?_, ?_, ?_⟩
  · intro c k
    rfl
  · intro σ s k htr
    cases hv : validKey k with
    | false => simp [Store.Get, hv] at htr
    | true =>
      cases hcm : s.cacheModel with
      | none =>
        have h2 : (Store.getAfterCache s k []).2.2 = [GetEvent.cacheConsulted] := by
          have heq : (Store.Get s k) = Store.getAfterCache s k [] := by
            simp [Store.Get, hv, hcm]
          rw [heq] at htr
          exact htr
        obtain ⟨rest, hr⟩ := getAfterCache_trace_shape s k []
        rw [hr] at h2
        simp at h2
      | some cm =>
        cases hb : (cm.get s.cacheState k).1 with
        | some bs => exact ⟨bs, by simp [Store.Get, hv, hcm, hb]⟩
        | none =>
          have heq : (Store.Get s k)
              = Store.getAfterCache { s with cacheState := (cm.get s.cacheState k).2 }
                 k [.cacheConsulted] := by
            simp [Store.Get, hv, hcm, hb]
          rw [heq] at htr
          obtain ⟨rest, hr⟩ :=
            getAfterCache_trace_shape
              { s with cacheState := (cm.get s.cacheState k).2 } k [.cacheConsulted]
          rw [hr] at htr
          simp at htr
  · intro σ s k cm cst' hk hcm hget
    simp [Store.Get, hk, hcm, hget]

/-- Witness for C10: an empty full-retention cache returns nil for "ab", so
Get falls through to the stages below the cache. -/
theorem stor_C10_witness :
    validKey "ab" = true ∧
    Store.Get (freshStoreC CacheAll cacheAllModel NewCacheAll none) "ab"
      = Store.getAfterCache
          { freshStoreC CacheAll cacheAllModel NewCacheAll none with
              cacheState := NewCacheAll }
          "ab" [.cacheConsulted] :=
  ⟨by decide,
   stor_C10.2.2 CacheAll (freshStoreC CacheAll cacheAllModel NewCacheAll none)
     "ab" cacheAllModel NewCacheAll (by decide) rfl rfl⟩

/-- Overwriting an element in place preserves the list length. -/
theorem replaceFirst_length (l : List cacheElem) (h : String) (d : GoBytes) :
    (replaceFirst l h d).length = l.length := by
  induction l with
  | nil => rfl
  | cons e rest ih =>
    unfold replaceFirst
    split
    · rfl
    · simpa using ih

/-- Overwriting an element in place preserves the recency order of
hashes. -/
theorem replaceFirst_map_hash (l : List cacheElem) (h : String) (d : GoBytes) :
    (replaceFirst l h d).map cacheElem.hash = l.map cacheElem.hash := by
  induction l with
  | nil => rfl
  | cons e rest ih =>
    unfold replaceFirst
    split
    · rename_i he
      simp [he]
    · simpa using ih

/-- Overwriting an absent hash changes nothing. -/
theorem replaceFirst_absent (l : List cacheElem) (h : String) (d : GoBytes)
    (hf : findElem l h = none) : replaceFirst l h d = l := by
  induction l with
  | nil => rfl
  | cons e rest ih =>
    unfold replaceFirst
    unfold findElem at hf
    split
    · rename_i he
      rw [if_pos he] at hf
      cases hf
    · rename_i he
      rw [if_neg he] at hf
      simpa using ih hf

/-- Removing a found element shrinks the list by exactly one. -/
theorem removeFirst_length (l : List cacheElem) (h : String) (e : cacheElem)
    (hf : findElem l h = some e) :
    (removeFirst l h).length + 1 = l.length := by
  induction l with
  | nil => cases hf
  | cons e' rest ih =>
    unfold removeFirst
    unfold findElem at hf
    split
    · rename_i he
      simp
    · rename_i he
      rw [if_neg he] at hf
      simpa using ih hf

/-- No cache operation changes the configured capacity. -/
theorem applyOp_capacity (c : CacheMostRecent) (o : CacheOp) :
    (applyOp c o).capacity = c.capacity := by
  cases o with
  | seeGet h d =>
    simp only [applyOp, CacheMostRecent.SeeGet]
    split
    · rfl
    · rfl
  | seePut h d => rfl
  | get h =>
    simp only [applyOp, CacheMostRecent.Get]
    cases findElem c.elems h with
    | none => rfl
    | some e => rfl

/-- One cache operation keeps the entry count within capacity. -/
theorem applyOp_length_le (c : CacheMostRecent) (o : CacheOp)
    (hcap : 1 ≤ c.capacity) (hlen : c.elems.length ≤ c.capacity) :
    (applyOp c o).elems.length ≤ c.capacity := by
  cases o with
  | seeGet h d =>
    simp only [applyOp, CacheMostRecent.SeeGet]
    split
    · rename_i hlt
      simp only [List.length_cons]
      omega
    · rename_i hlt
      simp only [List.length_cons, List.length_dropLast]
      omega
  | seePut h d =>
    simpa [applyOp, CacheMostRecent.SeePut, replaceFirst_length] using hlen
  | get h =>
    simp only [applyOp, CacheMostRecent.Get]
    cases hf : findElem c.elems h with
    | none => exact hlen
    | some e =>
      have hrm := removeFirst_length c.elems h e hf
      show (e :: removeFirst c.elems h).length ≤ c.capacity
      simp only [List.length_cons]
      omega

/-- An operation sequence preserves capacity and the within-capacity
invariant. -/
theorem runOps_invariant (ops : List CacheOp) :
    ∀ c : CacheMostRecent, 1 ≤ c.capacity → c.elems.length ≤ c.capacity →
      (runOps c ops).capacity = c.capacity ∧
      (runOps c ops).elems.length ≤ c.capacity := by
  induction ops with
  | nil =>
    intro c h1 h2
    exact ⟨rfl, h2⟩
  | cons o rest ih =>
    intro c h1 h2
    have hcap := applyOp_capacity c o
    have hlen := applyOp_length_le c o h1 h2
    have hrec := ih (applyOp c o) (by omega) (by omega)
    simp only [runOps, List.foldl_cons] at hrec ⊢
    exact ⟨by rw [hrec.1, hcap], by rw [← hcap]; exact hrec.2⟩

/-- C7.  Recency-cache capacity invariant: a cache constructed with
capacity N never holds more than N entries after any sequence of SeeGet,
SeePut and Get operations, and a SeeGet on a cache at capacity evicts
exactly the current tail (least-recently-promoted) entry, prepending the
new one. -/
theorem stor_C7 (N : Int) (c0 : CacheMostRecent)
    (hnew : NewCacheMostRecent N = some c0) :
    (∀ ops : List CacheOp, ((runOps c0 ops).elems.length : Int) ≤ N) ∧
    (∀ (c : CacheMostRecent) (h : String) (d : GoBytes),
       1 ≤ c.capacity → c.elems.length = c.capacity →
       (c.SeeGet h d).elems = ⟨h, d⟩ :: c.elems.dropLast) := by
  unfold NewCacheMostRecent at hnew
  by_cases hN : N ≤ 0
  · rw [if_pos hN] at hnew
    cases hnew
  · rw [if_neg hN] at hnew
    injection hnew with hc0
    subst hc0
    constructor
    · intro ops
      have hinv := runOps_invariant ops ⟨[], N.toNat⟩ (by simp; omega) (by simp)
      have h2 := hinv.2
      simp only at h2
      omega
    · intro c h d hcap hlen
      simp [CacheMostRecent.SeeGet, hlen]

/-- Witness for C7: a capacity-2 cache stays within two entries under a
mixed operation sequence. -/
theorem stor_C7_witness :
    NewCacheMostRecent 2 = some ⟨[], 2⟩ ∧
    ((runOps ⟨[], 2⟩
        [.seeGet "a" (some [0]), .seeGet "b" (some [1]), .seeGet "c" (some [2]),
         .get "a", .seePut "b" none]).elems.length : Int) ≤ 2 :=
  ⟨rfl,
   (stor_C7 2 ⟨[], 2⟩ rfl).1
     [.seeGet "a" (some [0]), .seeGet "b" (some [1]), .seeGet "c" (some [2]),
      .get "a", .seePut "b" none]⟩

/-- Counterexample for C8: with capacity 2, after SeeGet "a", SeeGet "b"
and an insertion overwrite of "a" (which does not promote), SeeGet of a
third key evicts "a" and retains "b" — the claim's stated victim "b" is
wrong for this operation sequence. -/
theorem stor_C8_counterexample :
    NewCacheMostRecent 2 = some ⟨[], 2⟩ ∧
    (runOps ⟨[], 2⟩
      [.seeGet "a" (some [0]), .seeGet "b" (some [1]),
       .seePut "a" (some [2]), .seeGet "c" (some [3])]).elems.map cacheElem.hash
      = ["c", "b"] :=
  ⟨rfl, by decide⟩

/-- C8 as amended.  SeePut overwrites in place without changing the
recency order and does nothing for an absent key; Get on a hit promotes
the found element to the front; consequently, the claim's capacity-2
sequence evicts "a" (still the least-recently-promoted), and the victim
is "b" only when "a" is additionally promoted by a cache-hit Get after
the overwrite. -/
theorem stor_C8 :
    (∀ (c : CacheMostRecent) (h : String) (d : GoBytes),
       (c.SeePut h d).elems.map cacheElem.hash = c.elems.map cacheElem.hash) ∧
    (∀ (c : CacheMostRecent) (h : String) (d : GoBytes),
       findElem c.elems h = none → c.SeePut h d = c) ∧
    (∀ (c : CacheMostRecent) (h : String) (e : cacheElem),
       findElem c.elems h = some e →
       c.Get h = (e.data, { c with elems := e :: removeFirst c.elems h })) ∧
    ((runOps ⟨[], 2⟩
        [.seeGet "a" (some [0]), .seeGet "b" (some [1]),
         .seePut "a" (some [2]), .seeGet "c" (some [3])]).elems
      = [⟨"c", some [3]⟩, ⟨"b", some [1]⟩]) ∧
    ((runOps ⟨[], 2⟩
        [.seeGet "a" (some [0]), .seeGet "b" (some [1]),
         .seePut "a" (some [2]), .get "a", .seeGet "c" (some [3])]).elems
      = [⟨"c", some [3]⟩, ⟨"a", some [2]⟩]) := by
  refine ⟨?_, ?_, ?_, by decide, by decide⟩
  · intro c h d
    simpa [CacheMostRecent.SeePut] using replaceFirst_map_hash c.elems h d
  · intro c h d hf
    simp [CacheMostRecent.SeePut, replaceFirst_absent c.elems h d hf]
  · intro c h e hf
    simp [CacheMostRecent.Get, hf]

/-- Witness for C8: a Get hit on a singleton cache returns the stored data
and promotes the element. -/
theorem stor_C8_witness :
    findElem (⟨[⟨"x", some [5]⟩], 1⟩ : CacheMostRecent).elems "x"
      = some ⟨"x", some [5]⟩ ∧
    CacheMostRecent.Get ⟨[⟨"x", some [5]⟩], 1⟩ "x"
      = (some [5], ⟨[⟨"x", some [5]⟩], 1⟩) :=
  ⟨rfl, stor_C8.2.2.1 ⟨[⟨"x", some [5]⟩], 1⟩ "x" ⟨"x", some [5]⟩ rfl⟩
